import Mathlib

/-!
Verification of an LSM-style conversational memory store: an append-only
record log (`AppendLog`), a columnar embedding index (`EmbeddingIndex`),
brute-force top-k cosine similarity (`topKSimilarity`), and the
orchestrating store (`Memory`), shallowly embedded from the TypeScript
sources.  Byte strings are `List Nat`, JavaScript numbers are `ℚ` (with
`Rat.sqrt` standing in for `Math.sqrt`), fallible operations return
`Except String`.
-/

namespace LsmEi

/-! ## AppendLog (src/log.ts)

State of one `AppendLog` instance: the bytes of `conversations.log`, the
append cursor `currentOffset`, and whether the write file descriptor is
still open (`fs.closeSync` on an already closed descriptor raises EBADF).
-/

structure AppendLog where
  file : List Nat
  currentOffset : Nat
  fdOpen : Bool
deriving DecidableEq

/-- Constructor: open `conversations.log` in `a+` mode (never truncates);
the cursor starts at the current file size. -/
def AppendLog.openLog (existing : List Nat) : AppendLog :=
  { file := existing, currentOffset := existing.length, fdOpen := true }

/-- `append(line)`: write `line + '\n'` at the cursor and return
`{ offset, length }` of the written bytes.  `line` is the UTF-8 byte
encoding of the JavaScript string; the terminator is the newline byte 10. -/
def AppendLog.append (st : AppendLog) (line : List Nat) : (Nat × Nat) × AppendLog :=
  let data := line ++ [10]
  ((st.currentOffset, data.length),
   { st with file := st.file ++ data, currentOffset := st.currentOffset + data.length })

/-- The bytes produced by `read(offset, length)`: `Buffer.alloc(length)` is
zero-filled, `fs.readSync` copies in the bytes available at `offset`, so the
result is the in-range slice padded with zero bytes up to `length`. -/
def AppendLog.readData (st : AppendLog) (offset len : Nat) : List Nat :=
  let avail := (st.file.drop offset).take len
  avail ++ List.replicate (len - avail.length) 0

/-- `read(offset, length)`: positioned read through a freshly opened read
descriptor on the same path.  `fs.readSync` does not fail on a read past
the end of file; it just reads fewer bytes. -/
def AppendLog.read (st : AppendLog) (offset len : Nat) : Except String (List Nat) :=
  .ok (st.readData offset len)

/-- `position` getter: the current end-of-log cursor. -/
def AppendLog.position (st : AppendLog) : Nat :=
  st.currentOffset

/-- `close()`: `fs.closeSync(this.fd)`; raises EBADF when the descriptor
was already closed. -/
def AppendLog.close (st : AppendLog) : Except String AppendLog :=
  if st.fdOpen then .ok { st with fdOpen := false } else .error ("EBADF")

/-- A sequence of `append` calls, returning the `(offset, length)` pairs in
call order together with the final log state. -/
def AppendLog.appendMany (st : AppendLog) : List (List Nat) → List (Nat × Nat) × AppendLog
  | [] => ([], st)
  | l :: ls =>
    let r := st.append l
    let rest := r.2.appendMany ls
    (r.1 :: rest.1, rest.2)

/-- The `(offset, length)` pairs the spec predicts for a run of appends
starting at cursor `off`: each offset is the position immediately before
its write, each length the number of bytes written including the
terminator. -/
def expectedRanges (off : Nat) : List (List Nat) → List (Nat × Nat)
  | [] => []
  | l :: ls => (off, l.length + 1) :: expectedRanges (off + (l.length + 1)) ls

/-! ## Similarity search (src/similarity.ts) -/

/-- One element of the array built by `topKSimilarity`. -/
structure SimResult where
  index : Nat
  score : ℚ
deriving DecidableEq

/-- `sum(v_i^2)`, the loop inside `norm`. -/
def sumSquares (v : List ℚ) : ℚ :=
  (v.map fun x => x * x).sum

/-- `norm(v) = Math.sqrt(sum(v_i^2))`, with `Rat.sqrt` standing in for
`Math.sqrt` (both are zero exactly on a zero sum of squares). -/
def vecNorm (v : List ℚ) : ℚ :=
  Rat.sqrt (sumSquares v)

/-- The dot-product loop `for j < query.length: dot += query[j] * v[j]`
(array access modelled by `getD`). -/
def dotProduct (q v : List ℚ) : ℚ :=
  (List.range q.length).foldl (fun acc j => acc + q.getD j 0 * v.getD j 0) 0

/-- The scoring loop: for each index `i` with nonzero stored norm, push
`{ index := i, score := dot / (queryNorm * norms[i]) }`; indices with
`norms[i] === 0` are skipped by `continue`. -/
def scoreCandidates (query : List ℚ) (vectors : List (List ℚ)) (norms : List ℚ)
    (queryNorm : ℚ) : List SimResult :=
  vectors.enum.filterMap fun p =>
    if norms.getD p.1 0 = 0 then none
    else some ⟨p.1, dotProduct query p.2 / (queryNorm * norms.getD p.1 0)⟩

/-- The order realised by `results.sort((a, b) => b.score - a.score)`:
`a` may stay before `b` exactly when the comparator is nonpositive,
i.e. `b.score ≤ a.score`. -/
def simLe (a b : SimResult) : Prop :=
  b.score ≤ a.score

instance : DecidableRel simLe :=
  fun a b => inferInstanceAs (Decidable (b.score ≤ a.score))

/-- `arr.slice(0, k)` for an arbitrary integer `k` (ECMA-262: a negative
end index counts from the end of the array). -/
def jsSlice0 (k : Int) (l : List α) : List α :=
  if k < 0 then l.take (l.length - (-k).toNat) else l.take k.toNat

/-- `topKSimilarity(query, vectors, norms, topK)`: return `[]` for a zero
query norm, otherwise score all candidates with nonzero stored norm, sort
descending by score (JavaScript's sort is stable, modelled by the stable
`List.insertionSort`), and `slice(0, topK)`. -/
def topKSimilarity (query : List ℚ) (vectors : List (List ℚ)) (norms : List ℚ)
    (topK : Int) : List SimResult :=
  if vecNorm query = 0 then []
  else jsSlice0 topK
    (List.insertionSort simLe (scoreCandidates query vectors norms (vecNorm query)))

/-- The full ranked candidate list before `slice(0, topK)` is applied
(empty for a zero query norm, where nothing is scored). -/
def allRanked (query : List ℚ) (vectors : List (List ℚ)) (norms : List ℚ) : List SimResult :=
  if vecNorm query = 0 then []
  else List.insertionSort simLe (scoreCandidates query vectors norms (vecNorm query))

/-- Sorted-output order stated by the spec: non-increasing scores, ties
broken by original (strictly smaller) index. -/
def rankedBefore (a b : SimResult) : Prop :=
  b.score ≤ a.score ∧ (b.score = a.score → a.index < b.index)

/-! ## Vector index (src/embedding-index.ts) -/

/-- The Arrow data types used by `buildSchema`, plus the two types the
spec names for the `offset` and `length` columns. `fixedSizeList`
carries its child field `(name, type, nullable)` inline. -/
inductive ArrowType where
  | float32 : ArrowType
  | float64 : ArrowType
  | int64 : ArrowType
  | uint64 : ArrowType
  | uint32 : ArrowType
  | fixedSizeList : Nat → String → ArrowType → Bool → ArrowType
deriving DecidableEq

/-- One Arrow schema field: `new Field(name, type, nullable)`. -/
structure ArrowField where
  name : String
  type : ArrowType
  nullable : Bool
deriving DecidableEq

/-- `buildSchema(dim)` from the source: vector, norm, offset, length.
Both `offset` and `length` are declared as `new Int64()`. -/
def buildSchema (dim : Nat) : List ArrowField :=
  [ { name := "vector", type := .fixedSizeList dim "value" .float32 false, nullable := false },
    { name := "norm", type := .float64, nullable := false },
    { name := "offset", type := .int64, nullable := false },
    { name := "length", type := .int64, nullable := false } ]

/-- The four-column schema exactly as the spec sentence describes it:
fixed float32 vector of length D, 64-bit float norm, 64-bit unsigned
offset, 32-bit unsigned length (refinement comparison definition,
written from the spec's words, to be compared with `buildSchema`). -/
def specSchema (dim : Nat) : List ArrowField :=
  [ { name := "vector", type := .fixedSizeList dim "value" .float32 false, nullable := false },
    { name := "norm", type := .float64, nullable := false },
    { name := "offset", type := .uint64, nullable := false },
    { name := "length", type := .uint32, nullable := false } ]

/-- `IndexEntry`: what `EmbeddingIndex.append` receives. -/
structure IndexEntry where
  vector : List ℚ
  offset : Nat
  length : Nat
deriving DecidableEq

/-- One row as persisted in a record batch: the norm is precomputed at
append time by `entriesToBatch`. -/
structure IndexRow where
  vector : List ℚ
  norm : ℚ
  offset : Nat
  length : Nat
deriving DecidableEq

/-- `entriesToBatch`: one record batch from a list of entries; the norm
column is `Math.sqrt(sum(v_j^2))` computed over each entry's vector. -/
def entriesToBatch (entries : List IndexEntry) : List IndexRow :=
  entries.map fun e => { vector := e.vector, norm := Rat.sqrt (sumSquares e.vector),
                         offset := e.offset, length := e.length }

/-- `EOS_SIZE`: size in bytes of the Arrow IPC end-of-stream marker. -/
def EOS_SIZE : Nat := 8

/-- The end-of-stream marker bytes (continuation marker followed by a
zero-length metadata word; what matters is its fixed size `EOS_SIZE`). -/
def eosBytes : List Nat :=
  [255, 255, 255, 255, 0, 0, 0, 0]

/-- `RecordBatchStreamWriter.writeAll(table).toUint8Array(true)` for a
table with the given batches: schema header, then one message per batch,
then the EOS marker.  The encodings of the schema header (`sb`) and of a
single batch message (`bb`) belong to the external `apache-arrow`
collaborator, so they are parameters of the model; only the stream layout
is fixed. -/
def writeAllBytes (sb : List ArrowField → List Nat) (bb : List IndexRow → List Nat)
    (schema : List ArrowField) (batches : List (List IndexRow)) : List Nat :=
  sb schema ++ (batches.map bb).flatten ++ eosBytes

/-- `schemaHeaderSize`: serialize an empty table (schema header + EOS)
and subtract the EOS marker size. -/
def schemaHeaderSize (sb : List ArrowField → List Nat) (bb : List IndexRow → List Nat)
    (schema : List ArrowField) : Nat :=
  (writeAllBytes sb bb schema []).length - EOS_SIZE

/-- `EmbeddingIndex.flush` at the level of file bytes (`none` = the index
file does not exist).  With nothing pending it is a no-op; on a fresh
file it writes the complete stream; on an existing file it truncates the
old EOS marker (`fs.truncateSync` rejects a negative length) and appends
the new batch messages followed by a fresh EOS marker. -/
def flushBytes (sb : List ArrowField → List Nat) (bb : List IndexRow → List Nat)
    (schema : List ArrowField) (pending : List (List IndexRow))
    (file : Option (List Nat)) : Except String (Option (List Nat)) :=
  if pending = [] then .ok file
  else
    let fullStream := writeAllBytes sb bb schema pending
    match file with
    | none => .ok (some fullStream)
    | some f =>
      if f.length < EOS_SIZE then .error ("ERR_OUT_OF_RANGE")
      else .ok (some (f.take (f.length - EOS_SIZE) ++ fullStream.drop (schemaHeaderSize sb bb schema)))

/-- `EmbeddingIndex` state at the level of parsed record batches:
the batches persisted in `embeddings.arrow` (`none` = file absent) and
the buffered, not yet flushed batches. -/
structure EmbeddingIndex where
  fileBatches : Option (List (List IndexRow))
  pendingBatches : List (List IndexRow)
deriving DecidableEq

/-- `append(entries)`: zero entries is a no-op; otherwise buffer one new
batch built by `entriesToBatch`. -/
def EmbeddingIndex.append (ix : EmbeddingIndex) (entries : List IndexEntry) : EmbeddingIndex :=
  if entries = [] then ix
  else { ix with pendingBatches := ix.pendingBatches ++ [entriesToBatch entries] }

/-- `flush()` at batch level: with nothing pending, a no-op; otherwise
the pending batches become part of the file content (the byte-level
surgery is `flushBytes`) and the buffer empties. -/
def EmbeddingIndex.flush (ix : EmbeddingIndex) : EmbeddingIndex :=
  if ix.pendingBatches = [] then ix
  else { fileBatches := some (ix.fileBatches.getD [] ++ ix.pendingBatches), pendingBatches := [] }

/-- `readAll()`: all persisted rows in file order followed by all
buffered rows. -/
def EmbeddingIndex.readAll (ix : EmbeddingIndex) : List IndexRow :=
  (ix.fileBatches.getD [] ++ ix.pendingBatches).flatten

/-- `close()`: flush pending batches. -/
def EmbeddingIndex.close (ix : EmbeddingIndex) : EmbeddingIndex :=
  ix.flush

/-- Modelled from the spec: `lastIndexedEnd()` is called by `Memory`'s
constructor but its definition is missing from the sources; the spec
defines it as the maximum of `offset + length` over all persisted plus
buffered rows, or 0 if there are none. -/
def EmbeddingIndex.lastIndexedEnd (ix : EmbeddingIndex) : Nat :=
  (ix.readAll.map fun r => r.offset + r.length).foldr max 0

/-! ## Memory store (src/memory.ts) -/

/-- State of one `Memory` instance.  The embedding provider is passed to
each operation as a function `em` from chunk bytes to a vector (it may
fail). -/
structure Memory where
  log : AppendLog
  index : EmbeddingIndex
  chunkSize : Nat
  chunkStartOffset : Nat
  bytesSinceLastEmbed : Nat
deriving DecidableEq

/-- The `Memory` constructor: open the log and the index over the durable
directory state, then recover `(chunkStartOffset, bytesSinceLastEmbed)`
from `lastIndexedEnd()` and the log position. -/
def Memory.openStore (chunkSize : Nat) (logFile : List Nat)
    (indexFile : Option (List (List IndexRow))) : Memory :=
  let lg := AppendLog.openLog logFile
  let ix : EmbeddingIndex := { fileBatches := indexFile, pendingBatches := [] }
  if ix.lastIndexedEnd < lg.position then
    { log := lg, index := ix, chunkSize := chunkSize,
      chunkStartOffset := ix.lastIndexedEnd,
      bytesSinceLastEmbed := lg.position - ix.lastIndexedEnd }
  else
    { log := lg, index := ix, chunkSize := chunkSize,
      chunkStartOffset := lg.position, bytesSinceLastEmbed := 0 }

/-- `flushChunk()`: read the active chunk from the log, embed it, buffer
one index row, advance the chunk start to the log position and reset the
counter.  An embedding failure propagates before the index append or any
state mutation. -/
def Memory.flushChunk (em : List Nat → Except String (List ℚ)) (m : Memory) :
    Except String Unit × Memory :=
  match em (m.log.readData m.chunkStartOffset m.bytesSinceLastEmbed) with
  | .error e => (.error e, m)
  | .ok vector =>
    (.ok (),
     { m with
       index := m.index.append [{ vector := vector, offset := m.chunkStartOffset,
                                  length := m.bytesSinceLastEmbed }],
       chunkStartOffset := m.log.position,
       bytesSinceLastEmbed := 0 })

/-- `append(turn)` with the serialized line passed in as bytes
(`JSON.stringify({ts: Date.now(), ...turn})` is nondeterministic in the
timestamp, so the model quantifies over the serialized line): append to
the log, grow the counter, and flush the chunk when the counter reaches
the threshold. -/
def Memory.appendTurn (em : List Nat → Except String (List ℚ)) (m : Memory)
    (line : List Nat) : Except String Unit × Memory :=
  let r := m.log.append line
  let m1 := { m with log := r.2, bytesSinceLastEmbed := m.bytesSinceLastEmbed + r.1.2 }
  if m1.chunkSize ≤ m1.bytesSinceLastEmbed then m1.flushChunk em
  else (.ok (), m1)

/-- The tail of `close()`: `this.index.close(); this.log.close();` —
closing the index flushes it, then the log descriptor is closed (which
raises when it is already closed). -/
def Memory.closeHandles (m : Memory) : Except String Unit × Memory :=
  let ix := m.index.close
  match m.log.close with
  | .error e => (.error e, { m with index := ix })
  | .ok lg => (.ok (), { m with index := ix, log := lg })

/-- `close()`: flush the final partial chunk when the counter is nonzero
(a failure there propagates and skips the handle closing), then close
the index and the log. -/
def Memory.close (em : List Nat → Except String (List ℚ)) (m : Memory) :
    Except String Unit × Memory :=
  if 0 < m.bytesSinceLastEmbed then
    match m.flushChunk em with
    | (.error e, m1) => (.error e, m1)
    | (.ok _, m1) => m1.closeHandles
  else m.closeHandles

/-! ## Helper lemmas -/

/-- `Rat.sqrt 0 = 0` (the stand-in for `Math.sqrt` maps zero to zero). -/
theorem ratSqrt_zero : Rat.sqrt 0 = 0 := by
  have h := Rat.sqrt_eq (0 : ℚ)
  rwa [mul_zero, abs_zero] at h

/-- `Rat.sqrt 1 = 1`. -/
theorem ratSqrt_one : Rat.sqrt 1 = 1 := by
  have h := Rat.sqrt_eq (1 : ℚ)
  rwa [mul_one, abs_one] at h

/-- `topKSimilarity` is `slice(0, k)` of the full ranked list. -/
theorem topK_eq_slice (q : List ℚ) (vs : List (List ℚ)) (ns : List ℚ) (k : Int) :
    topKSimilarity q vs ns k = jsSlice0 k (allRanked q vs ns) := by
  unfold topKSimilarity allRanked
  split
  · unfold jsSlice0
    split <;> simp
  · rfl

/-- `slice(0, k)` yields a sublist. -/
theorem jsSlice0_sublist (k : Int) (l : List α) : (jsSlice0 k l).Sublist l := by
  unfold jsSlice0
  split <;> exact List.take_sublist _ _

/-- `slice(0, k)` returns at most `k` elements when `0 ≤ k`. -/
theorem jsSlice0_length_le (k : Int) (hk : 0 ≤ k) (l : List α) :
    (jsSlice0 k l).length ≤ k.toNat := by
  unfold jsSlice0
  rw [if_neg (not_lt.mpr hk)]
  simp [List.length_take]

/-- Indices in `enumFrom n l` are at least `n`. -/
theorem le_fst_of_mem_enumFrom {p : Nat × α} {n : Nat} {l : List α}
    (h : p ∈ List.enumFrom n l) : n ≤ p.1 := by
  obtain ⟨i, x⟩ := p
  exact (List.mem_enumFrom h).1

/-- Indices in `enumFrom n l` are strictly increasing. -/
theorem pairwise_fst_lt_enumFrom (n : Nat) (l : List α) :
    (List.enumFrom n l).Pairwise fun a b => a.1 < b.1 := by
  induction l generalizing n with
  | nil => simp
  | cons x xs ih =>
    refine List.Pairwise.cons ?_ (ih (n + 1))
    intro p hp
    have := le_fst_of_mem_enumFrom hp
    omega

/-- The candidates built by the scoring loop carry strictly increasing
original indices. -/
theorem scoreCandidates_pairwise_index (q : List ℚ) (vs : List (List ℚ)) (ns : List ℚ)
    (qn : ℚ) : (scoreCandidates q vs ns qn).Pairwise fun a b => a.index < b.index := by
  unfold scoreCandidates
  rw [List.pairwise_filterMap]
  refine (pairwise_fst_lt_enumFrom 0 vs).imp ?_
  intro a b hab r hr r' hr'
  split at hr
  · cases hr
  · split at hr'
    · cases hr'
    · cases hr
      cases hr'
      exact hab

/-- A candidate returned by the scoring loop has a nonzero stored norm. -/
theorem mem_scoreCandidates_norm_ne_zero {q : List ℚ} {vs : List (List ℚ)} {ns : List ℚ}
    {qn : ℚ} {r : SimResult} (h : r ∈ scoreCandidates q vs ns qn) :
    ns.getD r.index 0 ≠ 0 := by
  unfold scoreCandidates at h
  rw [List.mem_filterMap] at h
  obtain ⟨p, hp, hf⟩ := h
  by_cases h0 : ns.getD p.1 0 = 0
  · rw [if_pos h0] at hf
    cases hf
  · rw [if_neg h0] at hf
    cases hf
    exact h0

/-- Inserting `x` into a list already ordered by `rankedBefore`, all of
whose elements have original index above `x`'s, keeps the order (this is
the stability of the sort: ties land after earlier-indexed elements). -/
theorem pairwise_rankedBefore_orderedInsert (x : SimResult) (ys : List SimResult)
    (hys : ys.Pairwise rankedBefore) (hidx : ∀ y ∈ ys, x.index < y.index) :
    (List.orderedInsert simLe x ys).Pairwise rankedBefore := by
  induction ys with
  | nil => simp [List.orderedInsert]
  | cons b l ih =>
    rw [List.orderedInsert]
    obtain ⟨hb, hl⟩ := List.pairwise_cons.mp hys
    split
    case isTrue hxb =>
      refine List.Pairwise.cons ?_ hys
      intro z hz
      rcases List.mem_cons.mp hz with rfl | hzl
      · exact ⟨hxb, fun _ => hidx z (List.mem_cons_self z l)⟩
      · exact ⟨le_trans (hb z hzl).1 hxb, fun _ => hidx z (List.mem_cons_of_mem _ hzl)⟩
    case isFalse hxb =>
      have hbx : x.score < b.score := lt_of_not_le hxb
      refine List.Pairwise.cons ?_ (ih hl fun y hy => hidx y (List.mem_cons_of_mem _ hy))
      intro z hz
      rcases (List.mem_orderedInsert simLe).mp hz with rfl | hzl
      · exact ⟨le_of_lt hbx, fun he => absurd he (ne_of_lt hbx)⟩
      · exact hb z hzl

/-- The stable insertion sort of a list with strictly increasing original
indices is ordered by `rankedBefore`. -/
theorem pairwise_rankedBefore_insertionSort (l : List SimResult)
    (hl : l.Pairwise fun a b => a.index < b.index) :
    (List.insertionSort simLe l).Pairwise rankedBefore := by
  induction l with
  | nil => simp [List.insertionSort]
  | cons x xs ih =>
    obtain ⟨hx, hxs⟩ := List.pairwise_cons.mp hl
    rw [List.insertionSort]
    exact pairwise_rankedBefore_orderedInsert x _ (ih hxs)
      fun y hy => hx y ((List.perm_insertionSort simLe xs).mem_iff.mp hy)

/-- The full ranked list is ordered by `rankedBefore`. -/
theorem allRanked_pairwise (q : List ℚ) (vs : List (List ℚ)) (ns : List ℚ) :
    (allRanked q vs ns).Pairwise rankedBefore := by
  unfold allRanked
  split
  · simp
  · exact pairwise_rankedBefore_insertionSort _ (scoreCandidates_pairwise_index q vs ns _)

/-- `appendMany` returns exactly the ranges the spec predicts. -/
theorem appendMany_ranges (st : AppendLog) (lines : List (List Nat)) :
    (st.appendMany lines).1 = expectedRanges st.currentOffset lines := by
  induction lines generalizing st with
  | nil => rfl
  | cons l ls ih =>
    simp [AppendLog.appendMany, AppendLog.append, expectedRanges, ih]

/-- The predicted ranges are adjacent and strictly increasing. -/
theorem chain'_expectedRanges (off : Nat) (lines : List (List Nat)) :
    (expectedRanges off lines).Chain' fun a b => b.1 = a.1 + a.2 ∧ a.1 < b.1 := by
  induction lines generalizing off with
  | nil => simp [expectedRanges]
  | cons l ls ih =>
    cases ls with
    | nil => simp [expectedRanges]
    | cons l2 ls2 =>
      rw [expectedRanges, expectedRanges, List.chain'_cons]
      exact ⟨⟨rfl, by omega⟩, ih (off + (l.length + 1))⟩

/-- A successful `flushChunk` advances the chunk start to the log
position, resets the counter and leaves the log itself untouched. -/
theorem flushChunk_ok_state (em : List Nat → Except String (List ℚ)) (m m' : Memory)
    (h : Memory.flushChunk em m = (.ok (), m')) :
    m'.chunkStartOffset = m.log.currentOffset ∧ m'.bytesSinceLastEmbed = 0 ∧
    m'.log = m.log := by
  unfold Memory.flushChunk at h
  split at h
  · simp at h
  · injection h with h1 h2
    subst h2
    exact ⟨rfl, rfl, rfl⟩

/-! ## Claim theorems -/

/-- Claim C1: at store open, with `logEnd` the log position and
`indexEnd = lastIndexedEnd()` (maximum of `offset + length` over all
persisted plus buffered rows, or 0 if none), if `indexEnd < logEnd` the
active chunk start becomes `indexEnd` and the counter
`logEnd - indexEnd`; otherwise the chunk start becomes `logEnd` and the
counter 0. -/
theorem open_recovery (chunkSize : Nat) (logFile : List Nat)
    (indexFile : Option (List (List IndexRow))) :
    (EmbeddingIndex.lastIndexedEnd ⟨indexFile, []⟩ < (AppendLog.openLog logFile).position →
      (Memory.openStore chunkSize logFile indexFile).chunkStartOffset
          = EmbeddingIndex.lastIndexedEnd ⟨indexFile, []⟩ ∧
      (Memory.openStore chunkSize logFile indexFile).bytesSinceLastEmbed
          = (AppendLog.openLog logFile).position - EmbeddingIndex.lastIndexedEnd ⟨indexFile, []⟩) ∧
    ((AppendLog.openLog logFile).position ≤ EmbeddingIndex.lastIndexedEnd ⟨indexFile, []⟩ →
      (Memory.openStore chunkSize logFile indexFile).chunkStartOffset
          = (AppendLog.openLog logFile).position ∧
      (Memory.openStore chunkSize logFile indexFile).bytesSinceLastEmbed = 0) := by
  constructor
  · intro h
    simp only [Memory.openStore, if_pos h]
    exact ⟨trivial, trivial⟩
  · intro h
    simp only [Memory.openStore, if_neg (not_lt.mpr h)]
    exact ⟨trivial, trivial⟩

/-- Witness for C1: a log of 5 bytes whose index covers only `[0, 3)`
recovers with chunk start 3 and counter 2. -/
theorem open_recovery_witness :
    (Memory.openStore 10 [0, 0, 0, 0, 0]
        (some [[{ vector := [1], norm := 1, offset := 0, length := 3 }]])).chunkStartOffset
      = EmbeddingIndex.lastIndexedEnd
          ⟨some [[{ vector := [1], norm := 1, offset := 0, length := 3 }]], []⟩ ∧
    (Memory.openStore 10 [0, 0, 0, 0, 0]
        (some [[{ vector := [1], norm := 1, offset := 0, length := 3 }]])).bytesSinceLastEmbed
      = (AppendLog.openLog [0, 0, 0, 0, 0]).position
        - EmbeddingIndex.lastIndexedEnd
            ⟨some [[{ vector := [1], norm := 1, offset := 0, length := 3 }]], []⟩ :=
  (open_recovery 10 [0, 0, 0, 0, 0]
    (some [[{ vector := [1], norm := 1, offset := 0, length := 3 }]])).1 (by decide)

/-- Claim C3 counterexample: reading one byte from an empty log has
`offset + length` beyond the file size, yet `read` succeeds (with a
zero-filled buffer) instead of failing with an IOError. -/
theorem read_past_size_counterexample :
    (AppendLog.openLog []).file.length < 0 + 1 ∧
    AppendLog.read (AppendLog.openLog []) 0 1 = .ok [0] :=
  ⟨by decide, rfl⟩

/-- Claim C3 (amended): `read(offset, length)` is a positioned read
independent of the append cursor; it never fails when
`offset + length` exceeds the file size — it returns exactly `length`
bytes, the available bytes zero-padded, and the exact stored bytes when
the range is in bounds. -/
theorem read_contract (st : AppendLog) (offset len cursor : Nat) :
    AppendLog.read st offset len = .ok (st.readData offset len) ∧
    (st.readData offset len).length = len ∧
    AppendLog.read { st with currentOffset := cursor } offset len
      = AppendLog.read st offset len ∧
    (offset + len ≤ st.file.length →
      st.readData offset len = (st.file.drop offset).take len) := by
  refine ⟨rfl, ?_, rfl, ?_⟩
  · simp only [AppendLog.readData, List.length_append, List.length_replicate,
      List.length_take, List.length_drop]
    omega
  · intro h
    have hmin : min len (st.file.length - offset) = len := by omega
    simp [AppendLog.readData, List.length_take, List.length_drop, hmin]

/-- Witness for C3: an in-bounds read of 2 bytes at offset 1 from a
3-byte log returns exactly the stored bytes. -/
theorem read_contract_witness :
    (AppendLog.openLog [1, 2, 3]).readData 1 2
      = ((AppendLog.openLog [1, 2, 3]).file.drop 1).take 2 :=
  (read_contract (AppendLog.openLog [1, 2, 3]) 1 2 0).2.2.2 (by decide)

/-- Claim C4 counterexample: on a fresh empty store the first `close()`
succeeds, but a second `close()` raises EBADF (from `fs.closeSync` on
the already-closed log descriptor) instead of being a no-op. -/
theorem close_twice_counterexample :
    (Memory.close (fun _ => Except.ok [(1 : ℚ)]) (Memory.openStore 10 [] none)).1
      = Except.ok () ∧
    (Memory.close (fun _ => Except.ok [(1 : ℚ)])
        ((Memory.close (fun _ => Except.ok [(1 : ℚ)]) (Memory.openStore 10 [] none)).2)).1
      = Except.error ("EBADF") :=
  ⟨rfl, rfl⟩

/-- Claim C4 (amended): with the accumulated-byte counter at zero and
the log descriptor open, `close()` performs no chunk flush (its result
does not depend on the embedding provider) and raises no error; a
second `close()` raises an error (EBADF) rather than being a no-op. -/
theorem close_contract (em em' : List Nat → Except String (List ℚ)) (m : Memory)
    (h0 : m.bytesSinceLastEmbed = 0) (h1 : m.log.fdOpen = true) :
    (Memory.close em m).1 = .ok () ∧
    Memory.close em m = Memory.close em' m ∧
    (Memory.close em ((Memory.close em m).2)).1 = .error ("EBADF") := by
  have hcond : ¬ 0 < m.bytesSinceLastEmbed := by omega
  simp [Memory.close, Memory.closeHandles, AppendLog.close, if_neg hcond, h1]

/-- Witness for C4: the amended contract at a concrete fresh store. -/
theorem close_contract_witness :
    (Memory.close (fun _ => Except.ok [(2 : ℚ)]) (Memory.openStore 7 [] none)).1
      = .ok () ∧
    Memory.close (fun _ => Except.ok [(2 : ℚ)]) (Memory.openStore 7 [] none)
      = Memory.close (fun _ => Except.error ("x")) (Memory.openStore 7 [] none) ∧
    (Memory.close (fun _ => Except.ok [(2 : ℚ)])
        ((Memory.close (fun _ => Except.ok [(2 : ℚ)]) (Memory.openStore 7 [] none)).2)).1
      = .error ("EBADF") :=
  close_contract (fun _ => Except.ok [(2 : ℚ)]) (fun _ => Except.error ("x"))
    (Memory.openStore 7 [] none) rfl rfl

/-- Claim C5: a successful `flush` onto an existing index file leaves
every byte below the old EOS marker untouched: the file content up to
`old size - EOS_SIZE` is the same before and after, for every schema
and batch encoding, every existing file content and every set of
buffered batches. -/
theorem flush_preserves_old_bytes (sb : List ArrowField → List Nat)
    (bb : List IndexRow → List Nat) (schema : List ArrowField)
    (pending : List (List IndexRow)) (f g : List Nat)
    (h : flushBytes sb bb schema pending (some f) = .ok (some g)) :
    g.take (f.length - EOS_SIZE) = f.take (f.length - EOS_SIZE) := by
  unfold flushBytes at h
  split at h
  · simp only [Except.ok.injEq, Option.some.injEq] at h
    rw [h]
  · split at h
    · rename_i heq
      exact absurd heq (by simp)
    · rename_i f2 heq
      cases heq
      split at h
      · cases h
      · simp only [Except.ok.injEq, Option.some.injEq] at h
        subst h
        have hlen : (f.take (f.length - EOS_SIZE)).length = f.length - EOS_SIZE := by
          simp only [List.length_take]
          omega
        rw [List.take_append_eq_append_take, hlen, Nat.sub_self, List.take_take,
          Nat.min_self, List.take_zero, List.append_nil]

/-- Witness for C5: appending one batch to a 10-byte file with a 2-byte
schema header keeps the first `10 - EOS_SIZE` bytes unchanged. -/
theorem flush_preserves_old_bytes_witness :
    ([9, 9, 5, 255, 255, 255, 255, 0, 0, 0, 0] : List Nat).take
        (([9, 9, 1, 1, 1, 1, 1, 1, 1, 1] : List Nat).length - EOS_SIZE)
      = ([9, 9, 1, 1, 1, 1, 1, 1, 1, 1] : List Nat).take
        (([9, 9, 1, 1, 1, 1, 1, 1, 1, 1] : List Nat).length - EOS_SIZE) :=
  flush_preserves_old_bytes (fun _ => [0, 0]) (fun _ => [5]) (buildSchema 1)
    [[{ vector := [1], norm := 1, offset := 0, length := 2 }]]
    [9, 9, 1, 1, 1, 1, 1, 1, 1, 1] [9, 9, 5, 255, 255, 255, 255, 0, 0, 0, 0] rfl

/-- Claim C6: if the embedding call inside `flushChunk` fails, the error
propagates, no index row is appended and the whole store state — log,
index buffers and the chunk bookkeeping — is returned unchanged. -/
theorem flushChunk_embed_error (em : List Nat → Except String (List ℚ)) (m : Memory)
    (e : String)
    (h : em (m.log.readData m.chunkStartOffset m.bytesSinceLastEmbed) = .error e) :
    Memory.flushChunk em m = (.error e, m) := by
  unfold Memory.flushChunk
  rw [h]

/-- Witness for C6: a provider that always fails leaves a concrete store
untouched. -/
theorem flushChunk_embed_error_witness :
    Memory.flushChunk (fun _ => Except.error ("boom")) (Memory.openStore 10 [] none)
      = (Except.error ("boom"), Memory.openStore 10 [] none) :=
  flushChunk_embed_error (fun _ => Except.error ("boom")) (Memory.openStore 10 [] none)
    ("boom") rfl

/-- Claim C7: every `append` returns `offset` equal to the cursor
position immediately before the write and `length` equal to the bytes
written including the terminator; hence a run of appends returns
exactly the predicted ranges, which are adjacent (each next offset is
the previous offset plus the previous length) and strictly
increasing. -/
theorem append_monotonic :
    (∀ (st : AppendLog) (line : List Nat),
      (st.append line).1 = (st.currentOffset, line.length + 1) ∧
      ((st.append line).2).currentOffset = st.currentOffset + (line.length + 1)) ∧
    (∀ (st : AppendLog) (lines : List (List Nat)),
      (st.appendMany lines).1 = expectedRanges st.currentOffset lines) ∧
    (∀ (st : AppendLog) (lines : List (List Nat)),
      ((st.appendMany lines).1).Chain' fun a b => b.1 = a.1 + a.2 ∧ a.1 < b.1) := by
  refine ⟨?_, appendMany_ranges, ?_⟩
  · intro st line
    constructor <;> simp [AppendLog.append]
  · intro st lines
    rw [appendMany_ranges]
    exact chain'_expectedRanges _ _

/-- Claim C9 counterexample: the schema built by the source does not
declare a 64-bit unsigned `offset` and a 32-bit unsigned `length`
column (at dimension 4, `buildSchema` differs from the spec's
schema). -/
theorem schema_types_counterexample : ¬ buildSchema 4 = specSchema 4 := by
  decide

/-- Claim C9 (amended): the index schema declares exactly four columns —
fixed-width float32 vector of length D, 64-bit float norm, 64-bit
signed integer offset and 64-bit signed integer length (Arrow `Int64`
for both of the last two). -/
theorem schema_types_amended (dim : Nat) :
    (buildSchema dim).map (fun fl => (fl.name, fl.type))
      = [("vector", ArrowType.fixedSizeList dim "value" ArrowType.float32 false),
         ("norm", ArrowType.float64),
         ("offset", ArrowType.int64),
         ("length", ArrowType.int64)] := by
  rfl

/-- Claim C2 counterexample: with two scored candidates and `k = -1 ≤ 0`
the result is not empty — `results.slice(0, -1)` drops only the last
element (JavaScript slice semantics), so "k ≤ 0 returns the empty list"
fails on the code. -/
theorem topK_negative_counterexample :
    ((-1 : Int) ≤ 0) ∧ topKSimilarity [1] [[1], [1]] [1, 1] (-1) ≠ [] := by
  refine ⟨by decide, ?_⟩
  have h : topKSimilarity [1] [[1], [1]] [1, 1] (-1) = [⟨0, 1⟩] := by
    simp [topKSimilarity, vecNorm, sumSquares, ratSqrt_one, jsSlice0, scoreCandidates,
      dotProduct, List.enum, List.enumFrom, List.insertionSort, List.orderedInsert, simLe,
      List.range, List.range.loop]
  rw [h]
  simp

/-- Claim C2 (amended): for `0 ≤ k`, `topK` returns at most `k` results;
for `k = 0` it returns the empty list; when `k` is at least the number
of ranked candidates it returns all of them; for `k < 0` it returns all
but the last `-k` candidates (JavaScript `slice` semantics); and the
result is always sorted non-increasing by score with ties broken by
original index order (stable sort). -/
theorem topK_contract (q : List ℚ) (vs : List (List ℚ)) (ns : List ℚ) (k : Int)
    (_hns : ns.length = vs.length) :
    (0 ≤ k → (topKSimilarity q vs ns k).length ≤ k.toNat) ∧
    (k = 0 → topKSimilarity q vs ns k = []) ∧
    (((allRanked q vs ns).length : Int) ≤ k →
      topKSimilarity q vs ns k = allRanked q vs ns) ∧
    (k < 0 → topKSimilarity q vs ns k
      = (allRanked q vs ns).take ((allRanked q vs ns).length - (-k).toNat)) ∧
    (topKSimilarity q vs ns k).Pairwise rankedBefore := by
  refine ⟨?_, ?_, ?_, ?_, ?_⟩
  · intro hk
    rw [topK_eq_slice]
    exact jsSlice0_length_le k hk _
  · intro hk
    subst hk
    rw [topK_eq_slice]
    unfold jsSlice0
    simp
  · intro hk
    rw [topK_eq_slice]
    unfold jsSlice0
    rw [if_neg (by omega)]
    exact List.take_of_length_le (by omega)
  · intro hk
    rw [topK_eq_slice]
    unfold jsSlice0
    rw [if_pos hk]
  · rw [topK_eq_slice]
    exact List.Pairwise.sublist (jsSlice0_sublist k _) (allRanked_pairwise q vs ns)

/-- Witness for C2: `k = 0` on two candidates returns the empty list. -/
theorem topK_contract_witness :
    topKSimilarity [1] [[1], [2]] [1, 2] 0 = [] :=
  (topK_contract [1] [[1], [2]] [1, 2] 0 (by decide)).2.1 rfl

/-- Claim C8: similarity scoring never divides by zero — a zero query
norm returns the empty list before any score is computed, and every
returned result's stored norm (and the query norm) is nonzero, because
zero-norm candidates are skipped by the loop. -/
theorem no_division_by_zero (q : List ℚ) (vs : List (List ℚ)) (ns : List ℚ) (k : Int) :
    (vecNorm q = 0 → topKSimilarity q vs ns k = []) ∧
    (∀ r ∈ topKSimilarity q vs ns k, vecNorm q ≠ 0 ∧ ns.getD r.index 0 ≠ 0) := by
  constructor
  · intro h
    unfold topKSimilarity
    rw [if_pos h]
  · intro r hr
    by_cases h : vecNorm q = 0
    · unfold topKSimilarity at hr
      rw [if_pos h] at hr
      exact absurd hr (List.not_mem_nil r)
    · refine ⟨h, ?_⟩
      unfold topKSimilarity at hr
      rw [if_neg h] at hr
      have hr2 := (jsSlice0_sublist k _).subset hr
      have hr3 := (List.perm_insertionSort simLe _).mem_iff.mp hr2
      exact mem_scoreCandidates_norm_ne_zero hr3

/-- Witness for C8: the zero query vector (norm 0) yields no results. -/
theorem no_division_by_zero_witness :
    topKSimilarity [] [[1]] [1] 5 = [] :=
  (no_division_by_zero [] [[1]] [1] 5).1 (by simp [vecNorm, sumSquares, ratSqrt_zero])

/-- Claim C10: `chunkStartOffset + bytesSinceLastEmbed = log position`
holds after construction (both recovery branches) and is preserved by
every successful `append` and (re-established by) every successful
`flushChunk`, so the active chunk always ends exactly at the log end. -/
theorem chunk_invariant :
    (∀ (chunkSize : Nat) (logFile : List Nat) (indexFile : Option (List (List IndexRow))),
      (Memory.openStore chunkSize logFile indexFile).chunkStartOffset
        + (Memory.openStore chunkSize logFile indexFile).bytesSinceLastEmbed
        = (Memory.openStore chunkSize logFile indexFile).log.currentOffset) ∧
    (∀ (em : List Nat → Except String (List ℚ)) (m m' : Memory) (line : List Nat),
      m.chunkStartOffset + m.bytesSinceLastEmbed = m.log.currentOffset →
      Memory.appendTurn em m line = (.ok (), m') →
      m'.chunkStartOffset + m'.bytesSinceLastEmbed = m'.log.currentOffset) ∧
    (∀ (em : List Nat → Except String (List ℚ)) (m m' : Memory),
      Memory.flushChunk em m = (.ok (), m') →
      m'.chunkStartOffset + m'.bytesSinceLastEmbed = m'.log.currentOffset) := by
  have hflush : ∀ (em : List Nat → Except String (List ℚ)) (m m' : Memory),
      Memory.flushChunk em m = (.ok (), m') →
      m'.chunkStartOffset + m'.bytesSinceLastEmbed = m'.log.currentOffset := by
    intro em m m' h
    obtain ⟨h1, h2, h3⟩ := flushChunk_ok_state em m m' h
    rw [h1, h2, h3]
    omega
  refine ⟨?_, ?_, hflush⟩
  · intro cs lf ixf
    simp only [Memory.openStore]
    split
    · rename_i h
      simp only [AppendLog.openLog, AppendLog.position] at h ⊢
      omega
    · simp [AppendLog.position]
  · intro em m m' line hinv happ
    simp only [Memory.appendTurn] at happ
    split at happ
    · exact hflush em _ m' happ
    · injection happ with ha hb
      subst hb
      simp only [AppendLog.append, List.length_append, List.length_cons, List.length_nil]
      omega

/-- Witness for C10: the invariant after a concrete under-threshold
append onto a fresh store. -/
theorem chunk_invariant_witness :
    ((Memory.appendTurn (fun _ => Except.ok [(1 : ℚ)])
        (Memory.openStore 10 [] none) [65]).2).chunkStartOffset
      + ((Memory.appendTurn (fun _ => Except.ok [(1 : ℚ)])
          (Memory.openStore 10 [] none) [65]).2).bytesSinceLastEmbed
      = ((Memory.appendTurn (fun _ => Except.ok [(1 : ℚ)])
          (Memory.openStore 10 [] none) [65]).2).log.currentOffset :=
  chunk_invariant.2.1 (fun _ => Except.ok [(1 : ℚ)]) (Memory.openStore 10 [] none)
    ((Memory.appendTurn (fun _ => Except.ok [(1 : ℚ)])
      (Memory.openStore 10 [] none) [65]).2) [65] rfl rfl

end LsmEi
